import Mathlib

/-!
Verification development for the work-dashboard reconciliation core:
branch-key extraction, PR caching with rate-limit fallback, ticket/PR/branch
reconciliation, the client-side metadata overlay (visibility, parent/child
graph with loop prevention) and the task comparator.  Each definition is a
shallow embedding of the corresponding TypeScript function; timestamps are
modelled as integer epoch milliseconds and JS `undefined` as `Option.none`.
-/

set_option maxHeartbeats 1000000

namespace AutomateWork

/-- Pull request record as produced by the GitHub service
(`types/index.ts`, fields relevant to caching and reconciliation).
`repository` is optional ("owner/repo"), `linkedTaskKey` is the optional
extracted JIRA key. -/
structure GitHubPR where
  id : String
  number : Nat
  branch : String
  repository : Option String
  linkedTaskKey : Option String
deriving DecidableEq

/-- Module-level PR cache state of `workService` (`cachedPRs`,
`cachedPRsTimestamp`). -/
structure CacheState where
  cachedPRs : List GitHubPR
  cachedPRsTimestamp : Int
deriving DecidableEq

/-- Embeds `CACHE_DURATION = 5 * 60 * 1000` (5 minutes, in ms). -/
def CACHE_DURATION : Int := 5 * 60 * 1000

/-- Embeds `.toLowerCase()` over the character list (extensionally
`String.toLower`, but by structural recursion so that concrete instances
evaluate). -/
def strLower (s : String) : String := String.mk (s.data.map Char.toLower)

/-- Embeds `pr.repository?.toLowerCase() === selectedRepo.toLowerCase()`. -/
def repoMatchesFilter (pr : GitHubPR) (r : String) : Bool :=
  pr.repository.map strLower = some (strLower r)

/-- The JS guard `selectedRepo && selectedRepo !== 'all'` (an absent or
empty string is falsy). -/
def filterActive (selectedRepo : Option String) : Bool :=
  match selectedRepo with
  | some r => r ≠ "" && r ≠ "all"
  | none => false

/-- Embeds `selectedRepo && selectedRepo !== 'all' ? cachedPRs.filter(...) : cachedPRs`. -/
def filterByRepo (prs : List GitHubPR) (selectedRepo : Option String) : List GitHubPR :=
  match selectedRepo with
  | some r =>
    if r ≠ "" && r ≠ "all" then prs.filter (fun pr => repoMatchesFilter pr r) else prs
  | none => prs

/-- The `shouldFetchPRs` condition of `getTasksWithPRs`: cache empty, or
TTL expired, or an active repository filter not represented in the cache. -/
def shouldFetchPRs (s : CacheState) (now : Int) (selectedRepo : Option String) : Bool :=
  s.cachedPRs.isEmpty ||
    decide (now - s.cachedPRsTimestamp > CACHE_DURATION) ||
    (filterActive selectedRepo &&
      (match selectedRepo with
       | some r => !(s.cachedPRs.any (fun pr => repoMatchesFilter pr r))
       | none => false))

/-- One execution of the cache-consulting prefix of `getTasksWithPRs`.
`rateLimited` is the result of `checkGitHubRateLimit`, `fetchResult` the
value `fetchPullRequests` would produce (`none` = the fetch throws, in
which case the surrounding `try`/`catch` leaves the cache untouched and the
route yields no PRs).  Returns the PR list used downstream, the new cache
state, and the number of upstream PR fetches issued. -/
def getTasksStep (s : CacheState) (now : Int) (rateLimited : Bool)
    (fetchResult : Option (List GitHubPR)) (selectedRepo : Option String) :
    List GitHubPR × CacheState × Nat :=
  if shouldFetchPRs s now selectedRepo && !rateLimited then
    match fetchResult with
    | some prs => (prs, ⟨prs, now⟩, 1)
    | none => ([], s, 1)
  else if rateLimited then
    if s.cachedPRs.isEmpty then
      match fetchResult with
      | some prs => (prs, ⟨prs, now⟩, 1)
      | none => ([], s, 1)
    else (filterByRepo s.cachedPRs selectedRepo, s, 0)
  else (filterByRepo s.cachedPRs selectedRepo, s, 0)

/-- Holds when the repository filter is inactive or some cached PR belongs
to the requested repository — the situation in which no refresh is desired on
account of the filter. -/
def filterSatisfied (s : CacheState) (selectedRepo : Option String) : Bool :=
  match selectedRepo with
  | some r => !(r ≠ "" && r ≠ "all") || s.cachedPRs.any (fun pr => repoMatchesFilter pr r)
  | none => true

/-- When no refresh is desired and the cache is non-empty, `getTasksStep`
serves the filtered cache without fetching, for any rate-limit state. -/
theorem getTasksStep_serves_cache (s : CacheState) (now : Int) (rl : Bool)
    (fr : Option (List GitHubPR)) (sr : Option String)
    (hf : shouldFetchPRs s now sr = false) (hne : s.cachedPRs ≠ []) :
    getTasksStep s now rl fr sr = (filterByRepo s.cachedPRs sr, s, 0) := by
  have hempty : s.cachedPRs.isEmpty = false := by
    cases h : s.cachedPRs with
    | nil => exact absurd h hne
    | cons a l => simp [List.isEmpty]
  unfold getTasksStep
  rw [hf]
  cases rl with
  | false => simp [hempty]
  | true => simp [hempty]

/-- C5: rate-limited with a non-empty cache serves the (filtered) cache
with no state change and zero upstream fetches; rate-limited with an empty
cache still attempts exactly one upstream fetch. -/
theorem rateLimited_fallback (s : CacheState) (now : Int)
    (fr : Option (List GitHubPR)) (sr : Option String) :
    (s.cachedPRs ≠ [] →
      getTasksStep s now true fr sr = (filterByRepo s.cachedPRs sr, s, 0)) ∧
    (s.cachedPRs = [] → (getTasksStep s now true fr sr).2.2 = 1) := by
  constructor
  · intro hne
    have hempty : s.cachedPRs.isEmpty = false := by
      cases h : s.cachedPRs with
      | nil => exact absurd h hne
      | cons a l => simp [List.isEmpty]
    unfold getTasksStep
    simp only [Bool.not_true, Bool.and_false, if_neg (by simp : ¬((shouldFetchPRs s now sr && false) = true))]
    simp [hempty]
  · intro he
    have hempty : s.cachedPRs.isEmpty = true := by simp [he, List.isEmpty]
    unfold getTasksStep
    simp only [Bool.not_true, Bool.and_false]
    cases fr with
    | none => simp [hempty]
    | some prs => simp [hempty]

/-- Witness for C5 at a concrete state. -/
theorem rateLimited_fallback_witness :
    (let s : CacheState :=
      ⟨[⟨"1", 1, "feature/ABC-1_x", some "org/repo", some "ABC-1"⟩], 0⟩
     s.cachedPRs ≠ [] ∧
      getTasksStep s 1000 true none none = (filterByRepo s.cachedPRs none, s, 0)) ∧
    (let e : CacheState := ⟨[], 0⟩
     e.cachedPRs = [] ∧ (getTasksStep e 1000 true none none).2.2 = 1) := by
  refine ⟨⟨by decide, ?_⟩, ⟨rfl, ?_⟩⟩
  · exact (rateLimited_fallback _ 1000 none none).1 (by decide)
  · exact (rateLimited_fallback _ 1000 none none).2 rfl

/-- C6: a second `get` within the TTL, with the cache populated by a first
`get` and the repository filter represented in the cache (or inactive),
issues no upstream fetch and leaves the cached entries and timestamp
unchanged. -/
theorem cache_hit_no_refetch (s0 : CacheState) (now1 : Int) (rl1 : Bool)
    (fr1 : Option (List GitHubPR)) (sr1 : Option String)
    (r1 : List GitHubPR) (s1 : CacheState) (n1 : Nat)
    (now2 : Int) (rl2 : Bool) (fr2 : Option (List GitHubPR)) (sr2 : Option String)
    (_h1 : getTasksStep s0 now1 rl1 fr1 sr1 = (r1, s1, n1))
    (hne : s1.cachedPRs ≠ [])
    (httl : now2 - s1.cachedPRsTimestamp ≤ CACHE_DURATION)
    (hrep : filterSatisfied s1 sr2 = true) :
    getTasksStep s1 now2 rl2 fr2 sr2 = (filterByRepo s1.cachedPRs sr2, s1, 0) := by
  apply getTasksStep_serves_cache _ _ _ _ _ _ hne
  have hempty : s1.cachedPRs.isEmpty = false := by
    cases h : s1.cachedPRs with
    | nil => exact absurd h hne
    | cons a l => simp [List.isEmpty]
  unfold shouldFetchPRs
  rw [hempty]
  have hd : decide (now2 - s1.cachedPRsTimestamp > CACHE_DURATION) = false := by
    simp only [decide_eq_false_iff_not]
    omega
  rw [hd]
  cases sr2 with
  | none => simp [filterActive]
  | some r =>
    simp only [Bool.false_or, filterActive]
    unfold filterSatisfied at hrep
    cases hact : (r ≠ "" && r ≠ "all") with
    | false => simp
    | true =>
      simp only [hact, Bool.not_true, Bool.false_or] at hrep
      simp [hrep]

/-- Witness for C6: a first fetch populates the cache; a second call 1 s
later with no filter is a pure cache hit. -/
theorem cache_hit_no_refetch_witness :
    (getTasksStep ⟨[], 0⟩ 0 false
        (some [⟨"1", 1, "feature/ABC-1_x", some "org/repo", some "ABC-1"⟩]) none =
      ([⟨"1", 1, "feature/ABC-1_x", some "org/repo", some "ABC-1"⟩],
        ⟨[⟨"1", 1, "feature/ABC-1_x", some "org/repo", some "ABC-1"⟩], 0⟩, 1)) ∧
    getTasksStep ⟨[⟨"1", 1, "feature/ABC-1_x", some "org/repo", some "ABC-1"⟩], 0⟩
        1000 false none none =
      ([⟨"1", 1, "feature/ABC-1_x", some "org/repo", some "ABC-1"⟩],
        ⟨[⟨"1", 1, "feature/ABC-1_x", some "org/repo", some "ABC-1"⟩], 0⟩, 0) := by
  constructor
  · decide
  · have := cache_hit_no_refetch ⟨[], 0⟩ 0 false
      (some [⟨"1", 1, "feature/ABC-1_x", some "org/repo", some "ABC-1"⟩]) none
      [⟨"1", 1, "feature/ABC-1_x", some "org/repo", some "ABC-1"⟩]
      ⟨[⟨"1", 1, "feature/ABC-1_x", some "org/repo", some "ABC-1"⟩], 0⟩ 1
      1000 false none none (by decide) (by decide) (by decide) (by decide)
    simpa using this

/-- Embeds `shouldTaskBeVisible` of `jiraMetadataService`: effective visibility
from the stored hidden status and the ticket's last-update timestamp.
The status is kept as an open string (persisted data may hold anything);
timestamps are epoch ms. -/
def shouldTaskBeVisible (lastJiraUpdate : Option Int) (hiddenStatus : String)
    (hiddenUntilUpdatedDate : Option Int) : Bool :=
  if hiddenStatus = "visible" then true
  else if hiddenStatus = "hidden" then false
  else if hiddenStatus = "hiddenUntilUpdated" then
    match lastJiraUpdate with
    | none => true
    | some t1 =>
      match hiddenUntilUpdatedDate with
      | none => true
      | some t0 => decide (t1 > t0)
  else true

/-- C2: effective visibility is `true` for `visible`, `false` for `hidden`;
for `hiddenUntilUpdated` with both timestamps present it is exactly
`t1 > t0`; an absent ticket timestamp or absent hidden-since timestamp
yields `true`; any unknown status yields `true`. -/
theorem shouldTaskBeVisible_spec :
    (∀ lu hd, shouldTaskBeVisible lu "visible" hd = true) ∧
    (∀ lu hd, shouldTaskBeVisible lu "hidden" hd = false) ∧
    (∀ t1 t0, shouldTaskBeVisible (some t1) "hiddenUntilUpdated" (some t0) =
      decide (t1 > t0)) ∧
    (∀ hd, shouldTaskBeVisible none "hiddenUntilUpdated" hd = true) ∧
    (∀ t1, shouldTaskBeVisible (some t1) "hiddenUntilUpdated" none = true) ∧
    (∀ lu hd s, s ≠ "visible" → s ≠ "hidden" → s ≠ "hiddenUntilUpdated" →
      shouldTaskBeVisible lu s hd = true) := by
  refine ⟨fun lu hd => rfl, fun lu hd => rfl, fun t1 t0 => rfl,
    fun hd => rfl, fun t1 => rfl, fun lu hd s h1 h2 h3 => ?_⟩
  unfold shouldTaskBeVisible
  rw [if_neg h1, if_neg h2, if_neg h3]

/-- Witness for C2 at concrete inputs (unknown status "paused"). -/
theorem shouldTaskBeVisible_spec_witness :
    ("paused" ≠ "visible") ∧ ("paused" ≠ "hidden") ∧
    ("paused" ≠ "hiddenUntilUpdated") ∧
    shouldTaskBeVisible (some 5) "paused" (some 9) = true :=
  ⟨by decide, by decide, by decide,
    shouldTaskBeVisible_spec.2.2.2.2.2 (some 5) (some 9) "paused"
      (by decide) (by decide) (by decide)⟩

/-! ## Branch key extraction (`githubService.ts`, `extractTaskKeyFromBranch`)

The three regex alternatives are embedded as deterministic scanners over the
character list: the alternation words start with pairwise-distinct letters
and the greedy character classes are disjoint from their successors, so the
JS backtracking engine is equivalent to maximal-munch with a leftmost
starting position. -/

/-- Consume the pattern `w` case-insensitively from the front of `l`
(the `/i` flag of the regexes). -/
def stripCI : List Char → List Char → Option (List Char)
  | [], l => some l
  | _ :: _, [] => none
  | a :: as, b :: bs => if a.toLower = b.toLower then stripCI as bs else none

/-- Pattern `([A-Za-z]+-\d+)(?:_|$)` anchored at the current position; returns the
captured key characters. -/
def keyAt (l : List Char) : Option (List Char) :=
  let letters := l.takeWhile Char.isAlpha
  let rest1 := l.dropWhile Char.isAlpha
  if letters.isEmpty then none
  else
    match rest1 with
    | '-' :: r2 =>
      let digits := r2.takeWhile Char.isDigit
      let rest3 := r2.dropWhile Char.isDigit
      if digits.isEmpty then none
      else
        match rest3 with
        | [] => some (letters ++ '-' :: digits)
        | '_' :: _ => some (letters ++ '-' :: digits)
        | _ => none
    | _ => none

/-- Pattern `(?:feature|bugfix|hotfix|release)\/([A-Za-z]+-\d+)(?:_|$)` anchored at
the current position. -/
def pat1At (l : List Char) : Option (List Char) :=
  match stripCI "feature/".data l <|> stripCI "bugfix/".data l <|>
      stripCI "hotfix/".data l <|> stripCI "release/".data l with
  | some rest => keyAt rest
  | none => none

/-- Pattern `(?:ROC|PROJ|JIRA)-(\d+)` anchored at the current position; captures the
(maximal) digit run. -/
def pat3At (l : List Char) : Option (List Char) :=
  match stripCI "ROC-".data l <|> stripCI "PROJ-".data l <|>
      stripCI "JIRA-".data l with
  | some rest =>
    let digits := rest.takeWhile Char.isDigit
    if digits.isEmpty then none else some digits
  | none => none

/-- Unanchored regex search: try the anchored matcher at each successive
start position (leftmost match wins, as in `String.prototype.match`). -/
def scanPat {α : Type} (f : List Char → Option α) : List Char → Option α
  | [] => f []
  | l@(_ :: rest) =>
    match f l with
    | some r => some r
    | none => scanPat f rest

/-- Post-processing of a captured key: a purely numeric capture is prefixed
with the default project code `ROC`, anything else is upper-cased. -/
def finishKey (cap : List Char) : String :=
  if !cap.isEmpty && cap.all Char.isDigit then
    String.mk ('R' :: 'O' :: 'C' :: '-' :: cap)
  else String.mk (cap.map Char.toUpper)

/-- Embeds `extractTaskKeyFromBranch`: the three patterns are tried in order,
first match wins. -/
def extractTaskKeyFromBranch (branchName : String) : Option String :=
  match scanPat pat1At branchName.data with
  | some cap => some (finishKey cap)
  | none =>
    match scanPat keyAt branchName.data with
    | some cap => some (finishKey cap)
    | none =>
      match scanPat pat3At branchName.data with
      | some cap => some (finishKey cap)
      | none => none

theorem uint32_le_iff (a b : UInt32) : a ≤ b ↔ a.toNat ≤ b.toNat := Iff.rfl

theorem toNat_bounds_of_isLower {c : Char} (h : c.isLower = true) :
    97 ≤ c.toNat ∧ c.toNat ≤ 122 := by
  unfold Char.isLower at h
  rw [Bool.and_eq_true, decide_eq_true_eq, decide_eq_true_eq] at h
  exact ⟨(uint32_le_iff _ _).mp h.1, (uint32_le_iff _ _).mp h.2⟩

theorem isLower_false_of_toNat {c : Char} (h : ¬(97 ≤ c.toNat ∧ c.toNat ≤ 122)) :
    c.isLower = false := by
  cases hl : c.isLower with
  | false => rfl
  | true => exact absurd (toNat_bounds_of_isLower hl) h

theorem ofNat_isLower_false {m : Nat} (h1 : 65 ≤ m) (h2 : m ≤ 90) :
    (Char.ofNat m).isLower = false := by
  interval_cases m <;> decide

/-- Upper-casing a character never produces a lower-case ASCII letter. -/
theorem toUpper_isLower_false (c : Char) : (Char.toUpper c).isLower = false := by
  have hu : Char.toUpper c =
      if c.toNat ≥ 97 ∧ c.toNat ≤ 122 then Char.ofNat (c.toNat - 32) else c := rfl
  by_cases h : c.toNat ≥ 97 ∧ c.toNat ≤ 122
  · rw [hu, if_pos h]
    exact ofNat_isLower_false (by omega) (by omega)
  · rw [hu, if_neg h]
    exact isLower_false_of_toNat (by omega)

theorem isDigit_isLower_false {c : Char} (h : c.isDigit = true) :
    c.isLower = false := by
  unfold Char.isDigit at h
  rw [Bool.and_eq_true, decide_eq_true_eq, decide_eq_true_eq] at h
  have h2 : c.toNat ≤ 57 := (uint32_le_iff _ _).mp h.2
  exact isLower_false_of_toNat (by omega)

theorem finishKey_no_lower (cap : List Char) :
    ∀ c ∈ (finishKey cap).data, c.isLower = false := by
  intro c hc
  unfold finishKey at hc
  split at hc
  · next h =>
    rw [Bool.and_eq_true] at h
    simp only [String.data, List.mem_cons] at hc
    rcases hc with h1 | h1 | h1 | h1 | h1
    · rw [h1]; decide
    · rw [h1]; decide
    · rw [h1]; decide
    · rw [h1]; decide
    · exact isDigit_isLower_false (List.all_eq_true.mp h.2 c h1)
  · next h =>
    simp only [String.data, List.mem_map] at hc
    obtain ⟨a, _, ha⟩ := hc
    rw [← ha]
    exact toUpper_isLower_false a

/-- C4 (amended): the extractor yields `"ABC-123"` for
`feature/ABC-123_foo`, yields no key at all for `bugfix/42_typo` (the
numeric fallback requires a ROC/PROJ/JIRA prefix) and for
`random-branch-name`, and every extracted key is free of lower-case ASCII
letters. -/
theorem extractTaskKeyFromBranch_spec :
    extractTaskKeyFromBranch "feature/ABC-123_foo" = some "ABC-123" ∧
    extractTaskKeyFromBranch "bugfix/42_typo" = none ∧
    extractTaskKeyFromBranch "random-branch-name" = none ∧
    (∀ b k, extractTaskKeyFromBranch b = some k →
      ∀ c ∈ k.data, c.isLower = false) := by
  refine ⟨by decide, by decide, by decide, fun b k h c hc => ?_⟩
  unfold extractTaskKeyFromBranch at h
  cases h1 : scanPat pat1At b.data with
  | some cap => rw [h1] at h; cases h; exact finishKey_no_lower cap c hc
  | none =>
    rw [h1] at h
    cases h2 : scanPat keyAt b.data with
    | some cap => rw [h2] at h; cases h; exact finishKey_no_lower cap c hc
    | none =>
      rw [h2] at h
      cases h3 : scanPat pat3At b.data with
      | some cap => rw [h3] at h; cases h; exact finishKey_no_lower cap c hc
      | none => rw [h3] at h; cases h

/-- Witness for C4's hypothesis-bearing part at a concrete branch name. -/
theorem extractTaskKeyFromBranch_spec_witness :
    extractTaskKeyFromBranch "feature/ABC-123_foo" = some "ABC-123" ∧
    'A' ∈ "ABC-123".data ∧ Char.isLower 'A' = false :=
  ⟨extractTaskKeyFromBranch_spec.1, by decide,
    extractTaskKeyFromBranch_spec.2.2.2 "feature/ABC-123_foo" "ABC-123"
      extractTaskKeyFromBranch_spec.1 'A' (by decide)⟩

/-- Counterexample to C4 as stated: on `bugfix/42_typo` the extractor
returns no key, not the default-prefixed `ROC-42` — pattern 3
(`(?:ROC|PROJ|JIRA)-(\d+)`) does not match a bare numeric reference. -/
theorem extractTaskKeyFromBranch_bugfix42_cx :
    extractTaskKeyFromBranch "bugfix/42_typo" = none := by decide

/-! ## Task metadata overlay (`jiraMetadataService.ts`)

The persisted metadata map is embedded as an association list keyed by task
id; `getJiraTaskMetadata` falls back to default metadata (`hiddenStatus:
'visible'`, no parent) for unknown ids.  `wouldCreateLoop`'s unbounded
`while` loop is embedded fuel-indexed (`none` = the loop has not finished
within the given fuel); the drag-and-drop guard runs it with fuel
`m.length + 1`, which is shown to suffice on acyclic stores. -/

/-- The fields of `JiraTaskMetadata` relevant to the parent graph and
visibility overlay. -/
structure TaskMeta where
  parentTaskId : Option String
  notes : Option String
  hiddenStatus : String
  hiddenUntilUpdatedDate : Option Int
deriving DecidableEq

/-- Default metadata for an id with no stored entry. -/
def defaultMeta : TaskMeta := ⟨none, none, "visible", none⟩

/-- The persisted `Record<string, JiraTaskMetadata>`. -/
abbrev MetaStore := List (String × TaskMeta)

/-- Embeds `getJiraTaskMetadata`. -/
def getMeta (m : MetaStore) (id : String) : TaskMeta :=
  (m.lookup id).getD defaultMeta

/-- Embeds `allMetadata[x]?.parentTaskId`. -/
def parentOf (m : MetaStore) (x : String) : Option String :=
  (getMeta m x).parentTaskId

/-- The `while (currentParent)` walk of `wouldCreateLoop`, fuel-indexed:
`some true` = reached `target`, `some false` = chain ended, `none` = fuel
exhausted before the loop finished. -/
def findFuel (m : MetaStore) (target : String) : Nat → Option String → Option Bool
  | _, none => some false
  | 0, some _ => none
  | fuel + 1, some cur =>
    if cur = target then some true
    else findFuel m target fuel (parentOf m cur)

/-- Embeds `wouldCreateLoop(taskId, newParentId)`, fuel-indexed. -/
def wouldCreateLoopFuel (m : MetaStore) (fuel : Nat) (taskId newParentId : String) :
    Option Bool :=
  if taskId = newParentId then some true
  else findFuel m taskId fuel (some newParentId)

/-- Executable loop check used by the drag-and-drop guard; fuel
`m.length + 1` completes the walk on every acyclic store (shown below), so
on such stores this equals the source's unbounded loop. -/
def wouldCreateLoopB (m : MetaStore) (taskId newParentId : String) : Bool :=
  (wouldCreateLoopFuel m (m.length + 1) taskId newParentId).getD true

/-- Embeds `updateJiraTaskMetadata` applied to a parent-id update: replace the
stored entry, keeping the other fields. -/
def setMetaParent (m : MetaStore) (t : String) (v : Option String) : MetaStore :=
  (t, { getMeta m t with parentTaskId := v }) :: m.filter (fun e => e.1 ≠ t)

/-- Embeds `handleDrop` in `JiraTaskCard`: ignore a drop onto the task itself,
reject when `wouldCreateLoop`, otherwise persist the new parent. -/
def setParentGuarded (m : MetaStore) (draggedTaskId targetId : String) : MetaStore :=
  if draggedTaskId ≠ targetId then
    if wouldCreateLoopB m draggedTaskId targetId then m
    else setMetaParent m draggedTaskId (some targetId)
  else m

/-- Embeds `handleRemoveParent`: `setTaskParent(task.id, undefined)`. -/
def removeParentMeta (m : MetaStore) (t : String) : MetaStore :=
  setMetaParent m t none

/-- A user-level mutation of the parent graph. -/
inductive MetaOp
  | assign (draggedTaskId targetId : String)
  | detach (taskId : String)

/-- Apply one mutation through the guarded path. -/
def applyOp (m : MetaStore) : MetaOp → MetaStore
  | .assign d t => setParentGuarded m d t
  | .detach t => removeParentMeta m t

/-- Apply a sequence of mutations. -/
def applyOps (m : MetaStore) (ops : List MetaOp) : MetaStore :=
  ops.foldl applyOp m

/-- Relation stating that `b` occurs (strictly) in the parent chain of `a`. -/
inductive Anc (m : MetaStore) : String → String → Prop
  | head {a b : String} : parentOf m a = some b → Anc m a b
  | tail {a b c : String} : parentOf m a = some b → Anc m b c → Anc m a c

/-- Reflexive closure of `Anc`. -/
def AncR (m : MetaStore) (a b : String) : Prop := a = b ∨ Anc m a b

/-- The stored parent relation has no cycle. -/
def Acyclic (m : MetaStore) : Prop := ∀ x, ¬ Anc m x x

theorem anc_trans {m : MetaStore} {a b c : String}
    (h1 : Anc m a b) (h2 : Anc m b c) : Anc m a c := by
  induction h1 with
  | head hp => exact Anc.tail hp h2
  | tail hp _ ih => exact Anc.tail hp (ih h2)

theorem anc_of_step_ancR {m : MetaStore} {a b c : String}
    (hp : parentOf m a = some b) (h : AncR m b c) : Anc m a c := by
  rcases h with rfl | h
  · exact Anc.head hp
  · exact Anc.tail hp h

theorem ancR_trans {m : MetaStore} {a b c : String}
    (h1 : AncR m a b) (h2 : AncR m b c) : AncR m a c := by
  rcases h1 with rfl | h1
  · exact h2
  · rcases h2 with rfl | h2
    · exact Or.inr h1
    · exact Or.inr (anc_trans h1 h2)

/-- Iterated parent lookup (the node reached after `n` steps, `none` once
the chain has ended). -/
def iterP (m : MetaStore) : Nat → String → Option String
  | 0, a => some a
  | n + 1, a =>
    match parentOf m a with
    | none => none
    | some b => iterP m n b

theorem findFuel_none_eq (m : MetaStore) (t : String) (n : Nat) :
    findFuel m t n none = some false := by cases n <;> rfl

theorem findFuel_succ (m : MetaStore) (t : String) (n : Nat) (a : String) :
    findFuel m t (n + 1) (some a) =
      if a = t then some true else findFuel m t n (parentOf m a) := rfl

theorem iterP_add {m : MetaStore} {i : Nat} {a x : String}
    (h : iterP m i a = some x) (k : Nat) : iterP m (i + k) a = iterP m k x := by
  induction i generalizing a with
  | zero => cases h; rw [Nat.zero_add]
  | succ n ih =>
    rw [iterP] at h
    cases hp : parentOf m a with
    | none => rw [hp] at h; cases h
    | some b =>
      rw [hp] at h
      have : n + 1 + k = (n + k) + 1 := by omega
      rw [this, iterP, hp]
      exact ih h

theorem anc_of_iterP {m : MetaStore} {k : Nat} {x y : String}
    (hk : 1 ≤ k) (h : iterP m k x = some y) : Anc m x y := by
  induction k generalizing x with
  | zero => omega
  | succ n ih =>
    rw [iterP] at h
    cases hp : parentOf m x with
    | none => rw [hp] at h; cases h
    | some b =>
      rw [hp] at h
      cases n with
      | zero => cases h; exact Anc.head hp
      | succ n2 => exact Anc.tail hp (ih (by omega) h)

theorem findFuel_none_chain {m : MetaStore} {t : String} {n : Nat} {a : String}
    (h : findFuel m t n (some a) = none) :
    ∀ i, i < n → ∃ x, iterP m i a = some x ∧ (parentOf m x).isSome := by
  induction n generalizing a with
  | zero => intro i hi; omega
  | succ n ih =>
    rw [findFuel_succ] at h
    by_cases hat : a = t
    · rw [if_pos hat] at h; cases h
    · rw [if_neg hat] at h
      cases hp : parentOf m a with
      | none => rw [hp, findFuel_none_eq] at h; cases h
      | some b =>
        rw [hp] at h
        intro i hi
        cases i with
        | zero => exact ⟨a, rfl, by rw [hp]; rfl⟩
        | succ j =>
          obtain ⟨x, hx, hs⟩ := ih h j (by omega)
          exact ⟨x, by rw [iterP, hp]; exact hx, hs⟩

theorem findFuel_mono {m : MetaStore} {t : String} {n : Nat} {s : Option String}
    {r : Bool} (h : findFuel m t n s = some r) (k : Nat) :
    findFuel m t (n + k) s = some r := by
  induction n generalizing s with
  | zero =>
    cases s with
    | none =>
      rw [findFuel_none_eq] at h
      cases h
      rw [findFuel_none_eq]
    | some a => exact absurd h (by rw [show findFuel m t 0 (some a) = none from rfl]; simp)
  | succ n ih =>
    cases s with
    | none =>
      rw [findFuel_none_eq] at h
      cases h
      rw [findFuel_none_eq]
    | some a =>
      rw [findFuel_succ] at h
      have harith : n + 1 + k = (n + k) + 1 := by omega
      by_cases hat : a = t
      · rw [if_pos hat] at h
        rw [harith, findFuel_succ, if_pos hat]
        exact h
      · rw [if_neg hat] at h
        rw [harith, findFuel_succ, if_neg hat]
        exact ih h

/-- The ids owning a stored entry. -/
def keysFinset (m : MetaStore) : Finset String := (m.map Prod.fst).toFinset

theorem lookup_eq_none_of_not_mem {m : MetaStore} {x : String}
    (h : x ∉ m.map Prod.fst) : m.lookup x = none := by
  induction m with
  | nil => rfl
  | cons e tl ih =>
    simp only [List.map_cons, List.mem_cons, not_or] at h
    rw [List.lookup]
    have : (x == e.1) = false := beq_eq_false_iff_ne.mpr h.1
    rw [this]
    exact ih h.2

theorem mem_keys_of_parentOf {m : MetaStore} {x y : String}
    (h : parentOf m x = some y) : x ∈ keysFinset m := by
  by_contra hx
  rw [keysFinset, List.mem_toFinset] at hx
  rw [parentOf, getMeta, lookup_eq_none_of_not_mem hx] at h
  cases h

/-- On an acyclic store the `wouldCreateLoop` walk finishes within
`|keys| + 1` steps: a longer walk would visit some stored id twice, giving
a cycle. -/
theorem findFuel_total (m : MetaStore) (t : String) (hA : Acyclic m) (a : String) :
    findFuel m t ((keysFinset m).card + 1) (some a) ≠ none := by
  intro hnone
  have hchain := findFuel_none_chain hnone
  have hmaps : ∀ i ∈ Finset.range ((keysFinset m).card + 1),
      (iterP m i a).getD "" ∈ keysFinset m := by
    intro i hi
    rw [Finset.mem_range] at hi
    obtain ⟨x, hx, hs⟩ := hchain i hi
    rw [hx, Option.getD_some]
    rw [Option.isSome_iff_exists] at hs
    obtain ⟨y, hy⟩ := hs
    exact mem_keys_of_parentOf hy
  have hlt : (keysFinset m).card < (Finset.range ((keysFinset m).card + 1)).card := by
    rw [Finset.card_range]; omega
  obtain ⟨i, hi, j, hj, hij, hfeq⟩ :=
    Finset.exists_ne_map_eq_of_card_lt_of_maps_to hlt hmaps
  have key : ∀ i j, i ∈ Finset.range ((keysFinset m).card + 1) →
      j ∈ Finset.range ((keysFinset m).card + 1) → i < j →
      (iterP m i a).getD "" = (iterP m j a).getD "" → False := by
    intro i j hi hj hlt2 heq
    rw [Finset.mem_range] at hi hj
    obtain ⟨x, hx, _⟩ := hchain i hi
    obtain ⟨y, hy, _⟩ := hchain j hj
    rw [hx, Option.getD_some, hy, Option.getD_some] at heq
    subst heq
    have hj2 : j = i + (j - i) := by omega
    rw [hj2] at hy
    rw [iterP_add hx (j - i)] at hy
    exact hA x (anc_of_iterP (by omega) hy)
  rcases lt_or_gt_of_ne hij with hlt2 | hlt2
  · exact key i j hi hj hlt2 hfeq
  · exact key j i hj hi hlt2 hfeq.symm

theorem keysFinset_card_le (m : MetaStore) : (keysFinset m).card ≤ m.length := by
  calc (keysFinset m).card ≤ (m.map Prod.fst).length := List.toFinset_card_le _
    _ = m.length := List.length_map _ _

/-- Fuel `m.length + 1` suffices on acyclic stores. -/
theorem findFuel_len_total (m : MetaStore) (t : String) (hA : Acyclic m) (a : String) :
    ∃ r, findFuel m t (m.length + 1) (some a) = some r := by
  have h1 := findFuel_total m t hA a
  rw [Option.ne_none_iff_exists] at h1
  obtain ⟨r, hr⟩ := h1
  have hle : (keysFinset m).card ≤ m.length := keysFinset_card_le m
  have harith : m.length + 1 = ((keysFinset m).card + 1) + (m.length - (keysFinset m).card) := by
    omega
  exact ⟨r, by rw [harith]; exact findFuel_mono hr.symm _⟩

theorem findFuel_some_true {m : MetaStore} {t : String} {n : Nat} {p : String}
    (h : findFuel m t n (some p) = some true) : AncR m p t := by
  induction n generalizing p with
  | zero => exact absurd h (by rw [show findFuel m t 0 (some p) = none from rfl]; simp)
  | succ n ih =>
    rw [findFuel_succ] at h
    by_cases hpt : p = t
    · exact Or.inl hpt
    · rw [if_neg hpt] at h
      cases hp : parentOf m p with
      | none => rw [hp, findFuel_none_eq] at h; cases h
      | some b =>
        rw [hp] at h
        exact Or.inr (anc_of_step_ancR hp (ih h))

theorem findFuel_some_false {m : MetaStore} {t : String} {n : Nat} {p : String}
    (h : findFuel m t n (some p) = some false) : ¬ AncR m p t := by
  induction n generalizing p with
  | zero => exact absurd h (by rw [show findFuel m t 0 (some p) = none from rfl]; simp)
  | succ n ih =>
    rw [findFuel_succ] at h
    by_cases hpt : p = t
    · rw [if_pos hpt] at h; cases h
    · rw [if_neg hpt] at h
      cases hp : parentOf m p with
      | none =>
        intro hr
        rcases hr with rfl | hr
        · exact hpt rfl
        · cases hr with
          | head h2 => rw [hp] at h2; cases h2
          | tail h2 _ => rw [hp] at h2; cases h2
      | some b =>
        rw [hp] at h
        have hb := ih h
        intro hr
        rcases hr with rfl | hr
        · exact hpt rfl
        · cases hr with
          | head h2 =>
            rw [hp] at h2; cases h2
            exact hb (Or.inl rfl)
          | tail h2 h3 =>
            rw [hp] at h2; cases h2
            exact hb (Or.inr h3)

theorem lookup_filter_ne {m : MetaStore} {x t : String} (hxt : x ≠ t) :
    (m.filter (fun e => e.1 ≠ t)).lookup x = m.lookup x := by
  induction m with
  | nil => rfl
  | cons e tl ih =>
    by_cases het : e.1 = t
    · have : (decide (e.1 ≠ t)) = false := by simp [het]
      rw [List.filter_cons, this]
      simp only [Bool.false_eq_true, if_false]
      rw [List.lookup]
      have : (x == e.1) = false := beq_eq_false_iff_ne.mpr (by rw [het]; exact hxt)
      rw [this, ih]
    · have : (decide (e.1 ≠ t)) = true := by simp [het]
      rw [List.filter_cons, this]
      simp only [if_true]
      rw [List.lookup, List.lookup]
      cases hxe : x == e.1 with
      | true => rfl
      | false => exact ih

theorem parentOf_setMetaParent (m : MetaStore) (t : String) (v : Option String)
    (x : String) :
    parentOf (setMetaParent m t v) x = if x = t then v else parentOf m x := by
  by_cases hxt : x = t
  · subst hxt
    rw [if_pos rfl, parentOf, getMeta, setMetaParent, List.lookup]
    have : (x == x) = true := beq_self_eq_true x
    rw [this]
    rfl
  · rw [if_neg hxt, parentOf, getMeta, setMetaParent, List.lookup]
    have : (x == t) = false := beq_eq_false_iff_ne.mpr hxt
    rw [this, lookup_filter_ne hxt]
    rfl

/-- A store whose step relation is contained in another inherits `Anc`. -/
theorem anc_mono {m1 m2 : MetaStore}
    (hsub : ∀ x y, parentOf m2 x = some y → parentOf m1 x = some y)
    {a b : String} (h : Anc m2 a b) : Anc m1 a b := by
  induction h with
  | head hp => exact Anc.head (hsub _ _ hp)
  | tail hp _ ih => exact Anc.tail (hsub _ _ hp) ih

/-- Removing a parent edge preserves acyclicity. -/
theorem removeParentMeta_acyclic {m : MetaStore} (hA : Acyclic m) (t : String) :
    Acyclic (removeParentMeta m t) := by
  intro z hz
  apply hA z
  apply anc_mono _ hz
  intro x y hxy
  rw [removeParentMeta, parentOf_setMetaParent] at hxy
  by_cases hxt : x = t
  · rw [if_pos hxt] at hxy; cases hxy
  · rw [if_neg hxt] at hxy; exact hxy

/-- Decomposition of a chain in the store with one new edge `t → p`:
either it already existed, or it runs through the new edge. -/
theorem anc_setMetaParent {m : MetaStore} {t p : String} {a b : String}
    (h : Anc (setMetaParent m t (some p)) a b) :
    Anc m a b ∨ (AncR m a t ∧ AncR m p b) := by
  induction h with
  | @head a b hp =>
    rw [parentOf_setMetaParent] at hp
    by_cases hat : a = t
    · rw [if_pos hat] at hp
      cases hp
      exact Or.inr ⟨Or.inl hat, Or.inl rfl⟩
    · rw [if_neg hat] at hp
      exact Or.inl (Anc.head hp)
  | @tail a b c hp _ ih =>
    rw [parentOf_setMetaParent] at hp
    by_cases hat : a = t
    · rw [if_pos hat] at hp
      cases hp
      rcases ih with h1 | h1
      · exact Or.inr ⟨Or.inl hat, Or.inr h1⟩
      · exact Or.inr ⟨Or.inl hat, h1.2⟩
    · rw [if_neg hat] at hp
      rcases ih with h1 | h1
      · exact Or.inl (Anc.tail hp h1)
      · exact Or.inr ⟨Or.inr (anc_of_step_ancR hp h1.1), h1.2⟩

/-- The guarded assignment preserves acyclicity. -/
theorem setParentGuarded_acyclic {m : MetaStore} (hA : Acyclic m)
    (d t : String) : Acyclic (setParentGuarded m d t) := by
  rw [setParentGuarded]
  by_cases hdt : d ≠ t
  · rw [if_pos hdt]
    cases hloop : wouldCreateLoopB m d t with
    | true => rw [if_pos rfl]; exact hA
    | false =>
      simp only [Bool.false_eq_true, if_false]
      rw [wouldCreateLoopB, wouldCreateLoopFuel] at hloop
      rw [if_neg hdt] at hloop
      have hsome : findFuel m d (m.length + 1) (some t) = some false := by
        cases hf : findFuel m d (m.length + 1) (some t) with
        | none => rw [hf] at hloop; cases hloop
        | some r =>
          rw [hf] at hloop
          rw [Option.getD_some] at hloop
          rw [hloop]
      have hnotd : ¬ AncR m t d := findFuel_some_false hsome
      intro z hz
      rcases anc_setMetaParent hz with h1 | ⟨h1, h2⟩
      · exact hA z h1
      · exact hnotd (ancR_trans h2 h1)
  · rw [if_neg hdt]
    exact hA

/-- Every guarded mutation preserves acyclicity. -/
theorem applyOp_acyclic {m : MetaStore} (hA : Acyclic m) (op : MetaOp) :
    Acyclic (applyOp m op) := by
  cases op with
  | assign d t => exact setParentGuarded_acyclic hA d t
  | detach t => exact removeParentMeta_acyclic hA t

theorem applyOps_acyclic (ops : List MetaOp) :
    ∀ m : MetaStore, Acyclic m → Acyclic (applyOps m ops) := by
  induction ops with
  | nil => exact fun _ hA => hA
  | cons op tl ih => exact fun m hA => ih (applyOp m op) (applyOp_acyclic hA op)

/-- C3: starting from an acyclic store, any sequence of guarded parent
assignments and removals keeps the parent relation acyclic, and the
parent-chain walk from any task on the resulting store terminates. -/
theorem setParent_sequence_acyclic (m : MetaStore) (ops : List MetaOp)
    (hA : Acyclic m) :
    Acyclic (applyOps m ops) ∧
    ∀ t start, ∃ r,
      findFuel (applyOps m ops) t ((applyOps m ops).length + 1) (some start) = some r := by
  have hAc : Acyclic (applyOps m ops) := applyOps_acyclic ops m hA
  exact ⟨hAc, fun t start => findFuel_len_total _ t hAc start⟩

/-- Witness for C3: empty store, one assignment. -/
theorem setParent_sequence_acyclic_witness :
    Acyclic ([] : MetaStore) ∧
    (Acyclic (applyOps [] [MetaOp.assign "a" "b"]) ∧
      ∀ t start, ∃ r,
        findFuel (applyOps [] [MetaOp.assign "a" "b"]) t
          ((applyOps [] [MetaOp.assign "a" "b"]).length + 1) (some start) = some r) :=
  have hnil : Acyclic ([] : MetaStore) := by
    intro x h
    cases h with
    | head hp => cases hp
    | tail hp _ => cases hp
  ⟨hnil, setParent_sequence_acyclic [] [MetaOp.assign "a" "b"] hnil⟩

/-- A store with a pre-existing two-cycle `a ↔ b` (as corrupted persisted
data could contain). -/
def cyclicStore : MetaStore :=
  [("a", ⟨some "b", none, "visible", none⟩), ("b", ⟨some "a", none, "visible", none⟩)]

theorem cyclicStore_walk_stuck (fuel : Nat) :
    findFuel cyclicStore "c" fuel (some "a") = none ∧
    findFuel cyclicStore "c" fuel (some "b") = none := by
  induction fuel with
  | zero => exact ⟨rfl, rfl⟩
  | succ n ih =>
    constructor
    · rw [findFuel_succ, if_neg (by decide : ¬("a" : String) = "c")]
      have : parentOf cyclicStore "a" = some "b" := by rfl
      rw [this]
      exact ih.2
    · rw [findFuel_succ, if_neg (by decide : ¬("b" : String) = "c")]
      have : parentOf cyclicStore "b" = some "a" := by rfl
      rw [this]
      exact ih.1

/-- C10: on every acyclic store `wouldCreateLoop` terminates (fuel
`m.length + 1` completes the walk) and returns `true` exactly when the task
equals the proposed parent or occurs in the proposed parent's ancestor
chain; on a corrupted store with a pre-existing cycle not containing the
task, the walk exhausts every fuel bound (the source loop diverges). -/
theorem wouldCreateLoop_total_on_acyclic :
    (∀ (m : MetaStore) (t p : String), Acyclic m →
      ∃ r, wouldCreateLoopFuel m (m.length + 1) t p = some r ∧
        (r = true ↔ (t = p ∨ Anc m p t))) ∧
    (∀ fuel, wouldCreateLoopFuel cyclicStore fuel "c" "a" = none) := by
  constructor
  · intro m t p hA
    rw [wouldCreateLoopFuel]
    by_cases htp : t = p
    · exact ⟨true, by rw [if_pos htp], by simp [htp]⟩
    · rw [if_neg htp]
      obtain ⟨r, hr⟩ := findFuel_len_total m t hA p
      refine ⟨r, hr, ?_⟩
      constructor
      · intro hrt
        rw [hrt] at hr
        rcases findFuel_some_true hr with rfl | h
        · exact Or.inl rfl
        · exact Or.inr h
      · intro hor
        cases r with
        | true => rfl
        | false =>
          exfalso
          have hnot := findFuel_some_false hr
          rcases hor with rfl | h
          · exact hnot (Or.inl rfl)
          · exact hnot (Or.inr h)
  · intro fuel
    rw [wouldCreateLoopFuel, if_neg (by decide : ¬("c" : String) = "a")]
    exact (cyclicStore_walk_stuck fuel).1

/-- Witness for C10's acyclic part at the empty store. -/
theorem wouldCreateLoop_total_on_acyclic_witness :
    Acyclic ([] : MetaStore) ∧
    ∃ r, wouldCreateLoopFuel [] (List.length ([] : MetaStore) + 1) "t" "p" = some r ∧
      (r = true ↔ (("t" : String) = "p" ∨ Anc [] "p" "t")) :=
  have hnil : Acyclic ([] : MetaStore) := by
    intro x h
    cases h with
    | head hp => cases hp
    | tail hp _ => cases hp
  ⟨hnil, wouldCreateLoop_total_on_acyclic.1 [] "t" "p" hnil⟩

/-! ## Task ordering (`utils.ts`, `sortTasksByPriority`) -/

/-- Embeds `getStatusPriority` (rank table, lower first). -/
def getStatusPriority (status : String) : Int :=
  match strLower status with
  | "in progress" => 1
  | "ready for prod" => 2
  | "open" | "todo" => 3
  | "qa" => 4
  | "review" => 5
  | "on hold" => 6
  | "done" => 7
  | "rejected" => 8
  | _ => 9

/-- Embeds `getIssueTypePriority`. -/
def getIssueTypePriority (issueType : String) : Int :=
  match strLower issueType with
  | "bug" => 1
  | "devbug" => 2
  | "story" => 3
  | "task" => 4
  | "sub-task" => 5
  | "epic" => 6
  | _ => 7

/-- Embeds `getPriorityValue`. -/
def getPriorityValue (priority : String) : Int :=
  match strLower priority with
  | "blocker" => 1
  | "critical" => 2
  | "urgent" => 3
  | "major" => 4
  | "high" => 5
  | "minor" => 6
  | "low" => 7
  | "trivial" => 8
  | _ => 9

/-- The fields `sortTasksByPriority`'s comparator can see, plus the task's
`isInSprint` flag (present on every task, not consulted by the
comparator). -/
structure SortTask where
  status : String
  issueType : String
  priority : Option String
  hiddenStatus : Option String
  lastJiraUpdate : Option Int
  hiddenUntilUpdatedDate : Option Int
  isInSprint : Bool
deriving DecidableEq

/-- The comparator's inner `isTaskVisible`. -/
def isTaskVisibleSort (t : SortTask) : Bool :=
  match t.hiddenStatus with
  | some "visible" => true
  | some "hidden" => false
  | some "hiddenUntilUpdated" =>
    match t.lastJiraUpdate with
    | none => true
    | some t1 =>
      match t.hiddenUntilUpdatedDate with
      | none => true
      | some t0 => decide (t1 > t0)
  | _ => true

/-- The comparator of `sortTasksByPriority` (negative = `a` sorts before
`b`): visibility, then paused-before-hidden among the non-visible, then
status rank, ticket-priority rank, issue-type rank. -/
def cmpTasks (a b : SortTask) : Int :=
  let aV := isTaskVisibleSort a
  let bV := isTaskVisibleSort b
  if aV = true ∧ bV = false then -1
  else if aV = false ∧ bV = true then 1
  else if aV = false ∧ bV = false ∧ a.hiddenStatus = some "hiddenUntilUpdated" ∧
      b.hiddenStatus = some "hidden" then -1
  else if aV = false ∧ bV = false ∧ a.hiddenStatus = some "hidden" ∧
      b.hiddenStatus = some "hiddenUntilUpdated" then 1
  else
    let sA := getStatusPriority a.status
    let sB := getStatusPriority b.status
    if sA ≠ sB then sA - sB
    else
      let pA := getPriorityValue (a.priority.getD "")
      let pB := getPriorityValue (b.priority.getD "")
      if pA ≠ pB then pA - pB
      else getIssueTypePriority a.issueType - getIssueTypePriority b.issueType

/-- C8 (amended): the comparator never consults sprint membership, and for
two effectively-visible tasks it orders lexicographically by status rank,
then ticket-priority rank, then issue-type rank. -/
theorem cmpTasks_keys :
    (∀ (a b : SortTask) (s1 s2 : Bool),
      cmpTasks { a with isInSprint := s1 } { b with isInSprint := s2 } = cmpTasks a b) ∧
    (∀ a b : SortTask, isTaskVisibleSort a = true → isTaskVisibleSort b = true →
      (cmpTasks a b < 0 ↔
        (getStatusPriority a.status < getStatusPriority b.status ∨
          (getStatusPriority a.status = getStatusPriority b.status ∧
            (getPriorityValue (a.priority.getD "") < getPriorityValue (b.priority.getD "") ∨
              (getPriorityValue (a.priority.getD "") = getPriorityValue (b.priority.getD "") ∧
                getIssueTypePriority a.issueType < getIssueTypePriority b.issueType)))))) := by
  constructor
  · intro a b s1 s2
    rfl
  · intro a b ha hb
    unfold cmpTasks
    rw [ha, hb]
    simp only [true_and, and_true, false_and, and_false]
    rw [if_neg (by simp), if_neg (by simp), if_neg (by simp), if_neg (by simp)]
    by_cases hs : getStatusPriority a.status = getStatusPriority b.status
    · rw [if_neg (by omega)]
      by_cases hp : getPriorityValue (a.priority.getD "") = getPriorityValue (b.priority.getD "")
      · rw [if_neg (by omega)]
        constructor
        · intro h; exact Or.inr ⟨hs, Or.inr ⟨hp, by omega⟩⟩
        · rintro (h | ⟨_, h | ⟨_, h⟩⟩) <;> omega
      · rw [if_pos (by omega)]
        constructor
        · intro h; exact Or.inr ⟨hs, Or.inl (by omega)⟩
        · rintro (h | ⟨_, h | ⟨h, _⟩⟩) <;> omega
    · rw [if_pos (by omega)]
      constructor
      · intro h; exact Or.inl (by omega)
      · rintro (h | ⟨h, _⟩) <;> omega

/-- Witness for C8's amended statement at concrete visible tasks. -/
theorem cmpTasks_keys_witness :
    isTaskVisibleSort ⟨"In Progress", "Task", some "Major", some "visible", none, none, false⟩ = true ∧
    isTaskVisibleSort ⟨"QA", "Task", some "Major", some "visible", none, none, true⟩ = true ∧
    (cmpTasks ⟨"In Progress", "Task", some "Major", some "visible", none, none, false⟩
        ⟨"QA", "Task", some "Major", some "visible", none, none, true⟩ < 0 ↔
      (getStatusPriority "In Progress" < getStatusPriority "QA" ∨
        (getStatusPriority "In Progress" = getStatusPriority "QA" ∧
          (getPriorityValue ((some "Major").getD "") < getPriorityValue ((some "Major").getD "") ∨
            (getPriorityValue ((some "Major").getD "") = getPriorityValue ((some "Major").getD "") ∧
              getIssueTypePriority "Task" < getIssueTypePriority "Task"))))) :=
  ⟨by decide, by decide,
    cmpTasks_keys.2 ⟨"In Progress", "Task", some "Major", some "visible", none, none, false⟩
      ⟨"QA", "Task", some "Major", some "visible", none, none, true⟩ (by decide) (by decide)⟩

/-- Counterexample to C8 as stated: both tasks are effectively visible, the
first is not in the sprint, the second is — yet the first sorts strictly
before the second (status rank decides; sprint membership is not a sort
key). -/
theorem cmpTasks_sprint_cx :
    isTaskVisibleSort ⟨"In Progress", "Task", some "Major", some "visible", none, none, false⟩ =
      isTaskVisibleSort ⟨"QA", "Task", some "Major", some "visible", none, none, true⟩ ∧
    (⟨"In Progress", "Task", some "Major", some "visible", none, none, false⟩ : SortTask).isInSprint = false ∧
    (⟨"QA", "Task", some "Major", some "visible", none, none, true⟩ : SortTask).isInSprint = true ∧
    cmpTasks ⟨"In Progress", "Task", some "Major", some "visible", none, none, false⟩
      ⟨"QA", "Task", some "Major", some "visible", none, none, true⟩ < 0 := by
  refine ⟨by decide, rfl, rfl, ?_⟩
  decide

/-! ## Sprint-membership derivation (`jiraService.ts`, `checkIfInSprint`)

Raw JIRA issues are duck-typed JSON; the relevant dynamic checks
(truthiness, `Array.isArray`, `typeof === 'object'`) are embedded over a
small JSON value type. -/

/-- A JSON/JS value as observed by `checkIfInSprint`. -/
inductive JsVal
  | null
  | bool (b : Bool)
  | num (n : Int)
  | str (s : String)
  | arr (xs : List JsVal)
  | obj (fields : List (String × JsVal))

/-- JS truthiness (an absent field is handled by `Option` outside). -/
def truthy : JsVal → Bool
  | .null => false
  | .bool b => b
  | .num n => n ≠ 0
  | .str s => s ≠ ""
  | .arr _ => true
  | .obj _ => true

/-- Embeds `Array.isArray`. -/
def isArray : JsVal → Bool
  | .arr _ => true
  | _ => false

/-- Embeds `typeof v === 'object'` (arrays and `null` included, as in JS). -/
def isObjectType : JsVal → Bool
  | .arr _ => true
  | .obj _ => true
  | .null => true
  | _ => false

/-- Property lookup on a JS object. -/
def lookupField (fields : List (String × JsVal)) (k : String) : Option JsVal :=
  fields.lookup k

/-- Embeds `sprint.state === 'active'`. -/
def stateIsActive : JsVal → Bool
  | .obj fs =>
    match lookupField fs "state" with
    | some (.str s) => s = "active"
    | _ => false
  | _ => false

/-- Case-sensitive list-prefix test. -/
def startsWithCL : List Char → List Char → Bool
  | [], _ => true
  | _ :: _, [] => false
  | a :: as, b :: bs => a = b && startsWithCL as bs

/-- Substring containment on character lists. -/
def containsCL (needle : List Char) : List Char → Bool
  | [] => startsWithCL needle []
  | l@(_ :: rest) => startsWithCL needle l || containsCL needle rest

/-- Embeds `hay.includes(needle)`. -/
def strContains (hay needle : String) : Bool := containsCL needle.data hay.data

/-- Method 1: `customfield_10020` is a truthy array with an active entry. -/
def sprintMethod1 (fields : List (String × JsVal)) : Bool :=
  match lookupField fields "customfield_10020" with
  | some v => truthy v && isArray v &&
      (match v with
       | .arr sprints => sprints.any stateIsActive
       | _ => false)
  | none => false

/-- Method 2: the `sprint` field is a truthy non-empty array. -/
def sprintMethod2 (fields : List (String × JsVal)) : Bool :=
  match lookupField fields "sprint" with
  | some v => truthy v && isArray v &&
      (match v with
       | .arr xs => decide (0 < xs.length)
       | _ => false)
  | none => false

/-- Method 3: the `sprint` field is truthy with `typeof === 'object'`. -/
def sprintMethod3 (fields : List (String × JsVal)) : Bool :=
  match lookupField fields "sprint" with
  | some v => truthy v && isObjectType v
  | none => false

/-- Method 4: some `customfield_` key holds a truthy string containing
`"sprint"` case-insensitively. -/
def sprintMethod4 (fields : List (String × JsVal)) : Bool :=
  fields.any (fun e =>
    startsWithCL "customfield_".data e.1.data && truthy e.2 &&
      (match e.2 with
       | .str s => strContains (strLower s) "sprint"
       | _ => false))

/-- Method 5: the `sprint` field is truthy and not `null`. -/
def sprintMethod5 (fields : List (String × JsVal)) : Bool :=
  match lookupField fields "sprint" with
  | some v => truthy v &&
      (match v with
       | .null => false
       | _ => true)
  | none => false

/-- Embeds `checkIfInSprint(issue)`: the five methods, first success wins (the
sequential early returns collapse to a disjunction). -/
def checkIfInSprint (fields : List (String × JsVal)) : Bool :=
  sprintMethod1 fields || sprintMethod2 fields || sprintMethod3 fields ||
    sprintMethod4 fields || sprintMethod5 fields

theorem sprintMethod1_iff (fields : List (String × JsVal)) :
    sprintMethod1 fields = true ↔
      ∃ xs, lookupField fields "customfield_10020" = some (.arr xs) ∧
        ∃ v ∈ xs, stateIsActive v = true := by
  unfold sprintMethod1
  cases hc : lookupField fields "customfield_10020" with
  | none => simp
  | some v => cases v <;> simp [truthy, isArray, List.any_eq_true]

theorem sprintMethod2_iff (fields : List (String × JsVal)) :
    sprintMethod2 fields = true ↔
      ∃ xs, lookupField fields "sprint" = some (.arr xs) ∧ xs ≠ [] := by
  unfold sprintMethod2
  cases hc : lookupField fields "sprint" with
  | none => simp
  | some v =>
    cases v with
    | arr xs =>
      simp [truthy, isArray]
      cases xs <;> simp
    | null => simp [truthy]
    | bool b => simp [truthy, isArray]
    | num n => simp [truthy, isArray]
    | str s => simp [truthy, isArray]
    | obj fs => simp [truthy, isArray]

theorem sprintMethod3_iff (fields : List (String × JsVal)) :
    sprintMethod3 fields = true ↔
      ∃ v, lookupField fields "sprint" = some v ∧ truthy v = true ∧
        isObjectType v = true := by
  unfold sprintMethod3
  cases hc : lookupField fields "sprint" with
  | none => simp
  | some v => simp

theorem sprintMethod4_iff (fields : List (String × JsVal)) :
    sprintMethod4 fields = true ↔
      ∃ e ∈ fields, startsWithCL "customfield_".data e.1.data = true ∧
        truthy e.2 = true ∧
        ∃ s, e.2 = JsVal.str s ∧ strContains (strLower s) "sprint" = true := by
  unfold sprintMethod4
  rw [List.any_eq_true]
  constructor
  · rintro ⟨e, he, hb⟩
    rw [Bool.and_eq_true, Bool.and_eq_true] at hb
    obtain ⟨⟨h1, h2⟩, h3⟩ := hb
    cases hv : e.2 with
    | str s => exact ⟨e, he, h1, h2, s, hv, by rw [hv] at h3; exact h3⟩
    | null => rw [hv] at h3; cases h3
    | bool b => rw [hv] at h3; cases h3
    | num n => rw [hv] at h3; cases h3
    | arr xs => rw [hv] at h3; cases h3
    | obj fs => rw [hv] at h3; cases h3
  · rintro ⟨e, he, h1, h2, s, hs, h3⟩
    refine ⟨e, he, ?_⟩
    rw [Bool.and_eq_true, Bool.and_eq_true, hs]
    exact ⟨⟨h1, by rw [hs] at h2; exact h2⟩, h3⟩

theorem sprintMethod5_iff (fields : List (String × JsVal)) :
    sprintMethod5 fields = true ↔
      ∃ v, lookupField fields "sprint" = some v ∧ truthy v = true ∧
        v ≠ .null := by
  unfold sprintMethod5
  cases hc : lookupField fields "sprint" with
  | none => simp
  | some v => cases v <;> simp [truthy]

/-- C9 (amended): `checkIfInSprint` is true exactly when one of the five
checks applies — (1) the `customfield_10020` collection contains an entry
with state `"active"`; (2) the `sprint` field is a non-empty array; (3) the
`sprint` field is truthy of object type; (4) some `customfield_` value is a
string containing `"sprint"`; (5) the `sprint` field is truthy — and in
particular a non-empty array in the `sprint` field with no active entry
yields true by check (2). -/
theorem checkIfInSprint_spec :
    (∀ fields, checkIfInSprint fields = true ↔
      ((∃ xs, lookupField fields "customfield_10020" = some (.arr xs) ∧
          ∃ v ∈ xs, stateIsActive v = true) ∨
       (∃ xs, lookupField fields "sprint" = some (.arr xs) ∧ xs ≠ []) ∨
       (∃ v, lookupField fields "sprint" = some v ∧ truthy v = true ∧
          isObjectType v = true) ∨
       (∃ e ∈ fields, startsWithCL "customfield_".data e.1.data = true ∧
          truthy e.2 = true ∧
          ∃ s, e.2 = JsVal.str s ∧ strContains (strLower s) "sprint" = true) ∨
       (∃ v, lookupField fields "sprint" = some v ∧ truthy v = true ∧ v ≠ .null))) ∧
    (∀ fields xs, lookupField fields "sprint" = some (.arr xs) → xs ≠ [] →
      checkIfInSprint fields = true) := by
  have main : ∀ fields, checkIfInSprint fields = true ↔
      ((∃ xs, lookupField fields "customfield_10020" = some (.arr xs) ∧
          ∃ v ∈ xs, stateIsActive v = true) ∨
       (∃ xs, lookupField fields "sprint" = some (.arr xs) ∧ xs ≠ []) ∨
       (∃ v, lookupField fields "sprint" = some v ∧ truthy v = true ∧
          isObjectType v = true) ∨
       (∃ e ∈ fields, startsWithCL "customfield_".data e.1.data = true ∧
          truthy e.2 = true ∧
          ∃ s, e.2 = JsVal.str s ∧ strContains (strLower s) "sprint" = true) ∨
       (∃ v, lookupField fields "sprint" = some v ∧ truthy v = true ∧ v ≠ .null)) := by
    intro fields
    unfold checkIfInSprint
    simp only [Bool.or_eq_true]
    rw [sprintMethod1_iff, sprintMethod2_iff, sprintMethod3_iff,
      sprintMethod4_iff, sprintMethod5_iff]
    simp only [or_assoc]
  refine ⟨main, fun fields xs hc hne => ?_⟩
  exact (main fields).mpr (Or.inr (Or.inl ⟨xs, hc, hne⟩))

/-- Witness for C9's hypothesis-bearing part: a non-empty `sprint` array
whose only entry is a closed sprint still counts as in-sprint. -/
theorem checkIfInSprint_spec_witness :
    lookupField [("sprint", JsVal.arr [JsVal.obj [("state", JsVal.str "closed")]])] "sprint" =
      some (JsVal.arr [JsVal.obj [("state", JsVal.str "closed")]]) ∧
    ([JsVal.obj [("state", JsVal.str "closed")]] : List JsVal) ≠ [] ∧
    checkIfInSprint [("sprint", JsVal.arr [JsVal.obj [("state", JsVal.str "closed")]])] = true :=
  ⟨rfl, by simp,
    checkIfInSprint_spec.2 [("sprint", JsVal.arr [JsVal.obj [("state", JsVal.str "closed")]])]
      [JsVal.obj [("state", JsVal.str "closed")]] rfl (by simp)⟩

/-- Counterexample to C9 as stated: the structured sprint-collection field
(`customfield_10020`) holds a non-empty collection with no active entry,
and the derivation yields `false` — check (2) reads the separate `sprint`
field, not the collection checked by (1). -/
theorem checkIfInSprint_collection_cx :
    checkIfInSprint
      [("customfield_10020", JsVal.arr [JsVal.obj [("state", JsVal.str "closed")]])] = false := by
  rfl

/-! ## Reconciliation (`workService.ts`: `getTasksWithPRs` phase 1 and
`combineTasksWithLocalBranches` phase 2) -/

/-- A JIRA task as fetched (`types/index.ts`). -/
structure JiraTask where
  id : String
  key : String
  name : String
  status : String
  issueType : String
  isInSprint : Bool
  lastJiraUpdate : Option Int
deriving DecidableEq

/-- A locally scanned branch (`types/index.ts`, `LocalBranch`). -/
structure LocalBranch where
  branch : String
  repository : String
  remoteOrigin : Option String
deriving DecidableEq

/-- Embeds `filterBranchesByTaskKey`: case-insensitive containment of the task
key in the branch name (the source escapes the key and tests with an `i`
regex). -/
def filterBranchesByTaskKey (branches : List LocalBranch) (taskKey : String) :
    List LocalBranch :=
  branches.filter (fun b => strContains (strLower b.branch) (strLower taskKey))

/-- Embeds `split(sep)` over a character list (JS semantics: always at least one
segment, a trailing separator yields an empty last segment). -/
def splitCL (sep : Char) : List Char → List (List Char)
  | [] => [[]]
  | c :: rest =>
    if c = sep then [] :: splitCL sep rest
    else
      match splitCL sep rest with
      | seg :: segs => (c :: seg) :: segs
      | [] => [[c]]

/-- Embeds `pr.repository?.split('/').pop()`. -/
def lastSeg (r : String) : String := String.mk ((splitCL '/' r.data).getLastD r.data)

/-- Case-sensitive consume of a literal prefix. -/
def stripCS : List Char → List Char → Option (List Char)
  | [], l => some l
  | _ :: _, [] => none
  | a :: as, b :: bs => if a = b then stripCS as bs else none

/-- The optional `.git` suffix of `([^/]+?)(?:\.git)?$`: the lazy group
drops a trailing `.git` when a non-empty repo name remains. -/
def stripGitSuffix (tail : List Char) : List Char :=
  if 4 < tail.length ∧ tail.drop (tail.length - 4) = ".git".data then
    tail.take (tail.length - 4)
  else tail

/-- Pattern `github\.com[/:]([^/]+)\/([^/]+?)(?:\.git)?$` anchored at the current
position: owner up to the first slash, then a slash-free repo name running
to the end of the string. -/
def ghAt (l : List Char) : Option (String × String) :=
  match stripCS "github.com".data l with
  | some (c :: r2) =>
    if c = '/' ∨ c = ':' then
      let owner := r2.takeWhile (fun ch => ch ≠ '/')
      let rest := r2.dropWhile (fun ch => ch ≠ '/')
      if owner.isEmpty then none
      else
        match rest with
        | '/' :: tail =>
          if tail.contains '/' then none
          else if tail.isEmpty then none
          else some (String.mk owner, String.mk (stripGitSuffix tail))
        | _ => none
    else none
  | _ => none

/-- Embeds `remoteOrigin.match(/github\.com[/:]([^/]+)\/([^/]+?)(?:\.git)?$/)`:
leftmost position at which the end-anchored pattern matches. -/
def parseRemoteOwnerRepo (url : String) : Option (String × String) :=
  scanPat ghAt url.data

/-- The per-PR test inside `hasCorrespondingPR`: equal branch names, and
repository identity by direct equality, by last path segment of the PR's
"owner/repo", or by the branch's remote origin parsing to the PR's
repository. -/
def prMatchesBranch (pr : GitHubPR) (lb : LocalBranch) : Bool :=
  if pr.branch ≠ lb.branch then false
  else if pr.repository = some lb.repository then true
  else if pr.repository.map lastSeg = some lb.repository then true
  else
    match lb.remoteOrigin with
    | some ro =>
      match parseRemoteOwnerRepo ro with
      | some (owner, repo) => some (owner ++ "/" ++ repo) = pr.repository
      | none => false
    | none => false

/-- Embeds `task.pullRequests.some(pr => ...)`. -/
def hasCorrespondingPR (prs : List GitHubPR) (lb : LocalBranch) : Bool :=
  prs.any (fun pr => prMatchesBranch pr lb)

/-- Embeds `allPRs.filter(pr => pr.linkedTaskKey?.toLowerCase() === task.key.toLowerCase())`. -/
def linkedPRsFor (prs : List GitHubPR) (key : String) : List GitHubPR :=
  prs.filter (fun pr => pr.linkedTaskKey.map strLower = some (strLower key))

/-- Embeds `getChildTasks(parentTaskId)`: ids of stored entries naming this
parent. -/
def getChildTaskIds (m : MetaStore) (pid : String) : List String :=
  (m.filter (fun e => e.2.parentTaskId = some pid)).map (fun e => e.1)

/-- A reconciled child task (phase 1 leaves `localBranches` unset). -/
structure ChildOut where
  task : JiraTask
  meta : TaskMeta
  pullRequests : List GitHubPR
  localBranches : Option (List LocalBranch)
deriving DecidableEq

/-- A reconciled task. -/
structure TaskOut where
  task : JiraTask
  meta : TaskMeta
  pullRequests : List GitHubPR
  childTasks : Option (List ChildOut)
  localBranches : Option (List LocalBranch)
deriving DecidableEq

/-- Phase 1, child mapping. -/
def mkChild (prs : List GitHubPR) (store : MetaStore) (c : JiraTask) : ChildOut :=
  ⟨c, getMeta store c.id, linkedPRsFor prs c.key, none⟩

/-- Phase 1, one task: linked PRs, metadata merge, child tasks (`undefined`
when empty). -/
def phase1Task (tasks : List JiraTask) (prs : List GitHubPR) (store : MetaStore)
    (t : JiraTask) : TaskOut :=
  let children := (tasks.filter
      (fun c => (getChildTaskIds store t.id).contains c.id)).map (mkChild prs store)
  ⟨t, getMeta store t.id, linkedPRsFor prs t.key,
    if children.isEmpty then none else some children, none⟩

/-- Phase 1 of `getTasksWithPRs` (after the PR list has been settled). -/
def getTasksWithPRsPure (tasks : List JiraTask) (prs : List GitHubPR)
    (store : MetaStore) : List TaskOut :=
  tasks.map (phase1Task tasks prs store)

/-- Branches for one task: key-matched, minus those already represented by
a linked PR. -/
def branchFilter (prs : List GitHubPR) (branches : List LocalBranch) (key : String) :
    List LocalBranch :=
  (filterBranchesByTaskKey branches key).filter (fun lb => !(hasCorrespondingPR prs lb))

/-- Phase 2 on a child task. -/
def phase2Child (branches : List LocalBranch) (c : ChildOut) : ChildOut :=
  let cl := branchFilter c.pullRequests branches c.task.key
  { c with localBranches := if cl.isEmpty then none else some cl }

/-- Phase 2 on a task. -/
def phase2Task (branches : List LocalBranch) (t : TaskOut) : TaskOut :=
  let lbs := branchFilter t.pullRequests branches t.task.key
  { t with
    localBranches := if lbs.isEmpty then none else some lbs,
    childTasks := t.childTasks.map (fun cs => cs.map (phase2Child branches)) }

/-- Embeds `combineTasksWithLocalBranches` (after the branch list has been
fetched). -/
def combineTasksWithLocalBranches (tasksIn : List TaskOut)
    (branches : List LocalBranch) : List TaskOut :=
  tasksIn.map (phase2Task branches)

/-- Both phases: the full reconciliation of tickets, PRs, metadata and
local branches. -/
def reconcile (tasks : List JiraTask) (prs : List GitHubPR) (store : MetaStore)
    (branches : List LocalBranch) : List TaskOut :=
  combineTasksWithLocalBranches (getTasksWithPRsPure tasks prs store) branches

theorem phase2Task_no_matched_branch (branches : List LocalBranch) (t : TaskOut)
    (lb : LocalBranch)
    (hm : hasCorrespondingPR (phase2Task branches t).pullRequests lb = true) :
    ∀ l, (phase2Task branches t).localBranches = some l → lb ∉ l := by
  intro l hl hmem
  have hpr : (phase2Task branches t).pullRequests = t.pullRequests := rfl
  rw [hpr] at hm
  have hl2 : (phase2Task branches t).localBranches =
      if (branchFilter t.pullRequests branches t.task.key).isEmpty then none
      else some (branchFilter t.pullRequests branches t.task.key) := rfl
  rw [hl2] at hl
  by_cases he : (branchFilter t.pullRequests branches t.task.key).isEmpty
  · rw [if_pos he] at hl; cases hl
  · rw [if_neg he] at hl
    cases hl
    rw [branchFilter, List.mem_filter] at hmem
    have := hmem.2
    rw [hm] at this
    cases this

theorem phase2Child_no_matched_branch (branches : List LocalBranch) (c : ChildOut)
    (lb : LocalBranch)
    (hm : hasCorrespondingPR (phase2Child branches c).pullRequests lb = true) :
    ∀ l, (phase2Child branches c).localBranches = some l → lb ∉ l := by
  intro l hl hmem
  have hpr : (phase2Child branches c).pullRequests = c.pullRequests := rfl
  rw [hpr] at hm
  have hl2 : (phase2Child branches c).localBranches =
      if (branchFilter c.pullRequests branches c.task.key).isEmpty then none
      else some (branchFilter c.pullRequests branches c.task.key) := rfl
  rw [hl2] at hl
  by_cases he : (branchFilter c.pullRequests branches c.task.key).isEmpty
  · rw [if_pos he] at hl; cases hl
  · rw [if_neg he] at hl
    cases hl
    rw [branchFilter, List.mem_filter] at hmem
    have := hmem.2
    rw [hm] at this
    cases this

/-- C1: in every reconciled task, a local branch that matches the task by
key and matches one of the task's linked PRs (branch-name equality plus
repository identity) never appears in the task's `localBranches`; the same
holds inside every child task. -/
theorem reconciled_branch_not_duplicated (tasks : List JiraTask)
    (prs : List GitHubPR) (store : MetaStore) (branches : List LocalBranch)
    (t2 : TaskOut) (ht : t2 ∈ reconcile tasks prs store branches)
    (lb : LocalBranch)
    (hkey : strContains (strLower lb.branch) (strLower t2.task.key) = true) :
    (hasCorrespondingPR t2.pullRequests lb = true →
      ∀ l, t2.localBranches = some l → lb ∉ l) ∧
    (∀ c2 ∈ t2.childTasks.getD [], hasCorrespondingPR c2.pullRequests lb = true →
      ∀ l, c2.localBranches = some l → lb ∉ l) := by
  rw [reconcile, combineTasksWithLocalBranches, List.mem_map] at ht
  obtain ⟨t1, _, rfl⟩ := ht
  constructor
  · exact fun hm => phase2Task_no_matched_branch branches t1 lb hm
  · intro c2 hc2 hm
    have hct : (phase2Task branches t1).childTasks =
        t1.childTasks.map (fun cs => cs.map (phase2Child branches)) := rfl
    rw [hct] at hc2
    cases hcs : t1.childTasks with
    | none => rw [hcs] at hc2; cases hc2
    | some cs =>
      rw [hcs] at hc2
      have hred : (Option.map (fun cs => List.map (phase2Child branches) cs)
          (some cs)).getD [] = cs.map (phase2Child branches) := rfl
      rw [hred, List.mem_map] at hc2
      obtain ⟨c1, _, rfl⟩ := hc2
      exact phase2Child_no_matched_branch branches c1 lb hm

/-- Concrete ticket, PR and branches for the reconciliation witnesses. -/
def wTask : JiraTask := ⟨"1", "ABC-1", "Fix login", "In Progress", "Bug", true, none⟩

def wPR : GitHubPR := ⟨"p1", 10, "feature/ABC-1_x", some "org/repo", some "ABC-1"⟩

def wLB : LocalBranch := ⟨"feature/ABC-1_x", "repo", none⟩

def wLB2 : LocalBranch := ⟨"feature/ABC-1_y", "repo", none⟩

/-- Witness for C1: the PR-matched branch is dropped, the unmatched one is
kept. -/
theorem reconciled_branch_not_duplicated_witness :
    ((⟨wTask, defaultMeta, [wPR], none, some [wLB2]⟩ : TaskOut) ∈
      reconcile [wTask] [wPR] [] [wLB, wLB2]) ∧
    strContains (strLower wLB.branch) (strLower wTask.key) = true ∧
    hasCorrespondingPR [wPR] wLB = true ∧
    wLB ∉ [wLB2] :=
  ⟨by decide, by decide, by decide,
    (reconciled_branch_not_duplicated [wTask] [wPR] [] [wLB, wLB2]
        ⟨wTask, defaultMeta, [wPR], none, some [wLB2]⟩ (by decide) wLB (by decide)).1
      (by decide) [wLB2] rfl⟩

/-! ### Order-independence of reconciliation (C7)

Reconciled tasks are compared up to list order by normalising every PR
list, branch list and child list to a multiset. -/

/-- Normal form of a reconciled child: PR and branch lists as multisets. -/
abbrev NormChild :=
  JiraTask × TaskMeta × Multiset GitHubPR × Option (Multiset LocalBranch)

/-- Normal form of a reconciled task. -/
abbrev NormTask :=
  JiraTask × TaskMeta × Multiset GitHubPR × Option (Multiset NormChild) ×
    Option (Multiset LocalBranch)

def nChild (c : ChildOut) : NormChild :=
  (c.task, c.meta, (c.pullRequests : Multiset GitHubPR),
    c.localBranches.map (fun l => (l : Multiset LocalBranch)))

def nTask (t : TaskOut) : NormTask :=
  (t.task, t.meta, (t.pullRequests : Multiset GitHubPR),
    t.childTasks.map (fun cs => ((cs.map nChild : List NormChild) : Multiset NormChild)),
    t.localBranches.map (fun l => (l : Multiset LocalBranch)))

/-- The reconciled output as a multiset of normalised tasks. -/
def nRecon (ts : List TaskOut) : Multiset NormTask :=
  ((ts.map nTask : List NormTask) : Multiset NormTask)

theorem perm_any_eq {α : Type} {l1 l2 : List α} (h : l1.Perm l2) (f : α → Bool) :
    l1.any f = l2.any f := by
  cases h2 : l2.any f with
  | true =>
    rw [List.any_eq_true] at h2 ⊢
    obtain ⟨x, hx, hfx⟩ := h2
    exact ⟨x, h.mem_iff.mpr hx, hfx⟩
  | false =>
    rw [List.any_eq_false] at h2 ⊢
    exact fun x hx => h2 x (h.mem_iff.mp hx)

theorem hasCorr_perm {prs prs2 : List GitHubPR} (hp : prs.Perm prs2)
    (lb : LocalBranch) :
    hasCorrespondingPR prs lb = hasCorrespondingPR prs2 lb :=
  perm_any_eq hp _

theorem branchFilter_perm {prs prs2 : List GitHubPR}
    {branches branches2 : List LocalBranch} (hp : prs.Perm prs2)
    (hb : branches.Perm branches2) (key : String) :
    (branchFilter prs branches key).Perm (branchFilter prs2 branches2 key) := by
  have h1 : (branchFilter prs branches key).Perm (branchFilter prs branches2 key) :=
    (hb.filter _).filter _
  have h2 : branchFilter prs branches2 key = branchFilter prs2 branches2 key := by
    rw [branchFilter, branchFilter]
    apply List.filter_congr
    intro lb _
    rw [hasCorr_perm hp]
  rw [h2] at h1
  exact h1

theorem optionize_perm {α : Type} {l1 l2 : List α} (h : l1.Perm l2) :
    (if l1.isEmpty then none else some l1).map (fun l => (l : Multiset α)) =
      (if l2.isEmpty then none else some l2).map (fun l => (l : Multiset α)) := by
  rw [h.isEmpty_eq]
  by_cases he : l2.isEmpty
  · rw [if_pos he, if_pos he]
  · rw [if_neg he, if_neg he]
    have hc : (l1 : Multiset α) = (l2 : Multiset α) := Multiset.coe_eq_coe.mpr h
    simp [hc]

theorem isEmpty_eq_of_length_eq {α β : Type} {l1 : List α} {l2 : List β}
    (h : l1.length = l2.length) : l1.isEmpty = l2.isEmpty := by
  cases l1 with
  | nil => cases l2 with
    | nil => rfl
    | cons b bs => simp at h
  | cons a as => cases l2 with
    | nil => simp at h
    | cons b bs => rfl

theorem nChild_pointwise {prs prs2 : List GitHubPR}
    {branches branches2 : List LocalBranch} (hp : prs.Perm prs2)
    (hb : branches.Perm branches2) (store : MetaStore) (c : JiraTask) :
    nChild (phase2Child branches (mkChild prs store c)) =
      nChild (phase2Child branches2 (mkChild prs2 store c)) := by
  have hlink : (linkedPRsFor prs c.key).Perm (linkedPRsFor prs2 c.key) := hp.filter _
  have hbf : (branchFilter (linkedPRsFor prs c.key) branches c.key).Perm
      (branchFilter (linkedPRsFor prs2 c.key) branches2 c.key) :=
    branchFilter_perm hlink hb c.key
  dsimp only [nChild, phase2Child, mkChild]
  refine congrArg₂ Prod.mk rfl ?_
  refine congrArg₂ Prod.mk rfl ?_
  refine congrArg₂ Prod.mk ?_ ?_
  · exact Multiset.coe_eq_coe.mpr hlink
  · exact optionize_perm hbf

theorem nTask_pointwise {tasks tasks2 : List JiraTask} {prs prs2 : List GitHubPR}
    {branches branches2 : List LocalBranch} (store : MetaStore)
    (ht : tasks.Perm tasks2) (hp : prs.Perm prs2) (hb : branches.Perm branches2)
    (t : JiraTask) :
    nTask (phase2Task branches (phase1Task tasks prs store t)) =
      nTask (phase2Task branches2 (phase1Task tasks2 prs2 store t)) := by
  have hlink : (linkedPRsFor prs t.key).Perm (linkedPRsFor prs2 t.key) := hp.filter _
  have hbf : (branchFilter (linkedPRsFor prs t.key) branches t.key).Perm
      (branchFilter (linkedPRsFor prs2 t.key) branches2 t.key) :=
    branchFilter_perm hlink hb t.key
  have hcperm : (tasks.filter
      (fun c => (getChildTaskIds store t.id).contains c.id)).Perm
      (tasks2.filter (fun c => (getChildTaskIds store t.id).contains c.id)) :=
    ht.filter _
  dsimp only [nTask, phase2Task, phase1Task]
  refine congrArg₂ Prod.mk rfl ?_
  refine congrArg₂ Prod.mk rfl ?_
  refine congrArg₂ Prod.mk (Multiset.coe_eq_coe.mpr hlink) ?_
  refine congrArg₂ Prod.mk ?_ (optionize_perm hbf)
  -- the children component
  set g := fun c : JiraTask => (getChildTaskIds store t.id).contains c.id with hg
  have hlen : ((tasks.filter g).map (mkChild prs store)).length =
      ((tasks2.filter g).map (mkChild prs2 store)).length := by
    rw [List.length_map, List.length_map, hcperm.length_eq]
  rw [isEmpty_eq_of_length_eq hlen]
  by_cases he : ((tasks2.filter g).map (mkChild prs2 store)).isEmpty
  · rw [if_pos he, if_pos he]; rfl
  · rw [if_neg he, if_neg he]
    dsimp only [Option.map]
    refine congrArg some ?_
    rw [List.map_map, List.map_map, List.map_map, List.map_map]
    have hstep : ((tasks.filter g).map
        ((nChild ∘ phase2Child branches) ∘ mkChild prs store)).Perm
        ((tasks2.filter g).map ((nChild ∘ phase2Child branches) ∘ mkChild prs store)) :=
      hcperm.map _
    have heq : (tasks2.filter g).map ((nChild ∘ phase2Child branches) ∘ mkChild prs store) =
        (tasks2.filter g).map ((nChild ∘ phase2Child branches2) ∘ mkChild prs2 store) :=
      List.map_congr_left (fun c _ => nChild_pointwise hp hb store c)
    rw [Multiset.coe_eq_coe]
    rw [heq] at hstep
    exact hstep

/-- C7: reconciliation is permutation-invariant — permuting the ticket, PR
and local-branch inputs yields the same multiset of reconciled tasks, each
with the same multiset of linked PRs, child tasks and standalone local
branches. -/
theorem reconcile_perm_invariant (tasks tasks2 : List JiraTask)
    (prs prs2 : List GitHubPR) (branches branches2 : List LocalBranch)
    (store : MetaStore) (ht : tasks.Perm tasks2) (hp : prs.Perm prs2)
    (hb : branches.Perm branches2) :
    nRecon (reconcile tasks prs store branches) =
      nRecon (reconcile tasks2 prs2 store branches2) := by
  rw [nRecon, nRecon, reconcile, reconcile, combineTasksWithLocalBranches,
    combineTasksWithLocalBranches, getTasksWithPRsPure, getTasksWithPRsPure,
    List.map_map, List.map_map, List.map_map, List.map_map]
  have hperm : (tasks.map ((nTask ∘ phase2Task branches) ∘ phase1Task tasks prs store)).Perm
      (tasks2.map ((nTask ∘ phase2Task branches) ∘ phase1Task tasks prs store)) :=
    ht.map _
  have heq : tasks2.map ((nTask ∘ phase2Task branches) ∘ phase1Task tasks prs store) =
      tasks2.map ((nTask ∘ phase2Task branches2) ∘ phase1Task tasks2 prs2 store) :=
    List.map_congr_left (fun t _ => nTask_pointwise store ht hp hb t)
  rw [Multiset.coe_eq_coe]
  rw [heq] at hperm
  exact hperm

/-- A second PR, unlinked, to make the permutation witness non-trivial. -/
def wPR2 : GitHubPR := ⟨"p2", 11, "feature/XY-9_z", some "org/other", some "XY-9"⟩

/-- Witness for C7 at concrete permuted inputs. -/
theorem reconcile_perm_invariant_witness :
    ([wTask].Perm [wTask]) ∧ ([wPR, wPR2].Perm [wPR2, wPR]) ∧
    ([wLB, wLB2].Perm [wLB2, wLB]) ∧
    nRecon (reconcile [wTask] [wPR, wPR2] [] [wLB, wLB2]) =
      nRecon (reconcile [wTask] [wPR2, wPR] [] [wLB2, wLB]) :=
  ⟨by decide, by decide, by decide,
    reconcile_perm_invariant [wTask] [wTask] [wPR, wPR2] [wPR2, wPR]
      [wLB, wLB2] [wLB2, wLB] [] (by decide) (by decide) (by decide)⟩

end AutomateWork
